import Mathlib

/-!
Shallow embedding of the inventory-api service
(src/inventory-api/inventory_manager.py and src/inventory-api/cache_manager.py).

Python dicts are modelled as insertion-ordered association lists; dict
assignment overwrites the first entry with the key in place (keeping its
position) and otherwise appends, and `del d[k]` removes the entry.  Python's
`datetime.now()` / `datetime.utcnow()` wall clock is modelled by an explicit
`now : Nat` argument threaded into every operation that reads the clock;
timestamps stored by the code are kept as these `Nat` values.  Python `int`
is `Int`.  An uncaught Python exception is modelled by returning `none`
(the code never catches any).
-/

namespace VersionHell

/-- Association-list lookup: first entry with the key, like a Python dict
read (keys are unique in every state the code builds). -/
def alookup {κ β : Type} [DecidableEq κ] : List (κ × β) → κ → Option β
  | [], _ => none
  | (k', v) :: rest, k => if k' = k then some v else alookup rest k

/-- Dict assignment `d[k] = v`: overwrite the first entry with key `k` in
place, else append. -/
def ainsert {κ β : Type} [DecidableEq κ] : List (κ × β) → κ → β → List (κ × β)
  | [], k, v => [(k, v)]
  | (k', v') :: rest, k, v =>
    if k' = k then (k, v) :: rest else (k', v') :: ainsert rest k v

/-- Dict deletion `del d[k]` (keys are unique, so filtering is exact). -/
def aerase {κ β : Type} [DecidableEq κ] (l : List (κ × β)) (k : κ) : List (κ × β) :=
  l.filter (fun p => p.1 ≠ k)

/-- In-place update `d[k]['field'] = ...` of the first entry with key `k`;
the code only does this on keys it has just checked to be present. -/
def amodify {κ β : Type} [DecidableEq κ] : List (κ × β) → κ → (β → β) → List (κ × β)
  | [], _, _ => []
  | (k', v) :: rest, k, f =>
    if k' = k then (k', f v) :: rest else (k', v) :: amodify rest k f

/-! ## CacheManager (cache_manager.py) -/

/-- State of `CacheManager`: `cache` and `expiry` dicts plus hit/miss
counters.  Values are kept generic; the inventory manager stores item
snapshots. -/
structure CacheManager (α : Type) where
  cache : List (String × α)
  expiry : List (String × Nat)
  hits : Nat
  misses : Nat
deriving Repr, DecidableEq

/-- `CacheManager.__init__`. -/
def CacheManager.empty {α : Type} : CacheManager α :=
  { cache := [], expiry := [], hits := 0, misses := 0 }

/-- `CacheManager.get`: lazily evicts an expired entry (strictly past its
expiry instant) and counts a miss; otherwise counts a hit and returns the
value. -/
def CacheManager.get {α : Type} (c : CacheManager α) (now : Nat) (key : String) :
    Option α × CacheManager α :=
  match alookup c.cache key with
  | some v =>
    match alookup c.expiry key with
    | some exp =>
      if now > exp then
        (none, { c with cache := aerase c.cache key, expiry := aerase c.expiry key,
                        misses := c.misses + 1 })
      else
        (some v, { c with hits := c.hits + 1 })
    | none => (some v, { c with hits := c.hits + 1 })
  | none => (none, { c with misses := c.misses + 1 })

/-- `CacheManager.set`: unconditionally stores the value with expiry
`now + ttl`. -/
def CacheManager.set {α : Type} (c : CacheManager α) (key : String) (value : α)
    (ttl : Nat) (now : Nat) : CacheManager α :=
  { c with cache := ainsert c.cache key value, expiry := ainsert c.expiry key (now + ttl) }

/-- `CacheManager.delete`: removes the entry if present (the expiry entry is
only removed when the value entry existed, as in the source). -/
def CacheManager.delete {α : Type} (c : CacheManager α) (key : String) : CacheManager α :=
  if (alookup c.cache key).isSome then
    { c with cache := aerase c.cache key, expiry := aerase c.expiry key }
  else c

/-- `CacheManager.clear`. -/
def CacheManager.clear {α : Type} (c : CacheManager α) : CacheManager α :=
  { c with cache := [], expiry := [] }

/-- Round-half-to-even of a rational to an integer, the last step of
Python's `round(x, 2)`; the binary representation error of the interim
float is not modelled. -/
def roundHalfEven (q : ℚ) : ℤ :=
  let f := Rat.floor q
  if q - f < 1/2 then f
  else if 1/2 < q - f then f + 1
  else if f % 2 = 0 then f else f + 1

/-- Python `round(q, 2)` over exact rationals. -/
def pyRound2 (q : ℚ) : ℚ := (roundHalfEven (q * 100) : ℚ) / 100

/-- Result of `CacheManager.get_status`. -/
structure CacheStatus where
  entries : Nat
  hits : Nat
  misses : Nat
  hit_rate : ℚ
deriving Repr, DecidableEq

/-- `CacheManager.get_status`: the reported `hit_rate` is a percentage
(`hits / total * 100`) rounded to two decimal places, `0` when there have
been no requests. -/
def CacheManager.get_status {α : Type} (c : CacheManager α) : CacheStatus :=
  let total := c.hits + c.misses
  let hit_rate : ℚ := if total > 0 then (c.hits : ℚ) / (total : ℚ) * 100 else 0
  { entries := c.cache.length, hits := c.hits, misses := c.misses,
    hit_rate := pyRound2 hit_rate }

/-! ## InventoryManager (inventory_manager.py) -/

/-- One catalog record, the value of `self.inventory[item_id]`. -/
structure Item where
  item_id : Nat
  name : String
  stock : Int
  reserved : Int
  sku : String
deriving Repr, DecidableEq

/-- The enriched copy of an item built by `get_item` and stored in the
cache: the record's fields plus `available` and the retrieval timestamp. -/
structure Snapshot where
  item_id : Nat
  name : String
  stock : Int
  reserved : Int
  sku : String
  available : Int
  last_checked : Nat
deriving Repr, DecidableEq

/-- The value of `self.reservations[order_id]`: a per-item quantity dict and
a creation timestamp. -/
structure Reservation where
  items : List (Nat × Int)
  timestamp : Nat
deriving Repr, DecidableEq

/-- One entry of `self.adjustment_log`. -/
structure AdjustmentLogEntry where
  item_id : Nat
  old_stock : Int
  new_stock : Int
  adjustment : Int
  reason : String
  timestamp : Nat
deriving Repr, DecidableEq

/-- Full mutable state of an `InventoryManager` together with its
`CacheManager`. -/
structure InventoryManager where
  cache : CacheManager Snapshot
  inventory : List (Nat × Item)
  reservations : List (String × Reservation)
  adjustment_log : List AdjustmentLogEntry
deriving Repr, DecidableEq

/-- The cache key `f'item:{item_id}'`. -/
def itemKey (item_id : Nat) : String := "item:" ++ toString item_id

/-- The seeded catalog the manager builds at construction. -/
def initialInventory : List (Nat × Item) :=
  [ (1001, ⟨1001, "Laptop Pro 15\"", 47, 3, "LAP-PRO-15"⟩),
    (1002, ⟨1002, "Wireless Mouse", 234, 12, "MSE-WRL-01"⟩),
    (1003, ⟨1003, "Mechanical Keyboard", 89, 5, "KBD-MCH-01"⟩),
    (1004, ⟨1004, "USB-C Hub", 156, 8, "HUB-USC-01"⟩),
    (1005, ⟨1005, "27\" Monitor 4K", 23, 2, "MON-27-4K"⟩),
    (1006, ⟨1006, "Webcam HD Pro", 78, 6, "WBC-HD-PRO"⟩),
    (1007, ⟨1007, "Desk Lamp LED", 142, 4, "LMP-DSK-LED"⟩),
    (1008, ⟨1008, "Cable Organizer", 8, 1, "ORG-CBL-01"⟩),
    (1009, ⟨1009, "Laptop Stand", 5, 0, "STD-LAP-01"⟩),
    (1010, ⟨1010, "Headphones Noise Cancel", 112, 15, "HDP-NC-01"⟩) ]

/-- `InventoryManager.__init__` with a fresh `CacheManager`. -/
def initialManager : InventoryManager :=
  { cache := CacheManager.empty, inventory := initialInventory,
    reservations := [], adjustment_log := [] }

/-- Result of `get_item`. -/
inductive GetItemResult where
  | notFound (item_id : Nat)
  | found (snap : Snapshot)
deriving Repr, DecidableEq

/-- `InventoryManager.get_item`: read-through cache; on miss, copies the
item, adds `available` and `last_checked`, caches it with TTL 60.  The
source's truthiness test `if cached:` always passes for a cached snapshot
(a non-empty dict). -/
def InventoryManager.get_item (m : InventoryManager) (now : Nat) (item_id : Nat) :
    GetItemResult × InventoryManager :=
  match m.cache.get now (itemKey item_id) with
  | (some snap, cache1) => (GetItemResult.found snap, { m with cache := cache1 })
  | (none, cache1) =>
    match alookup m.inventory item_id with
    | none => (GetItemResult.notFound item_id, { m with cache := cache1 })
    | some item =>
      let snap : Snapshot :=
        { item_id := item.item_id, name := item.name, stock := item.stock,
          reserved := item.reserved, sku := item.sku,
          available := item.stock - item.reserved, last_checked := now }
      (GetItemResult.found snap,
       { m with cache := cache1.set (itemKey item_id) snap 60 now })

/-- `InventoryManager.check_availability`: `false` for unknown ids, else
`available >= quantity` against live state. -/
def InventoryManager.check_availability (m : InventoryManager) (item_id : Nat)
    (quantity : Int) : Bool :=
  match alookup m.inventory item_id with
  | none => false
  | some item => decide (item.stock - item.reserved ≥ quantity)

/-- Result of `reserve_items`. -/
inductive ReserveResult where
  | duplicate (order_id : String)
  | insufficient (item_id : Nat) (requested : Int) (available : Int)
  | reserved (order_id : String) (items_reserved : Nat)
      (reservation_details : List (Nat × Int))
deriving Repr, DecidableEq

/-- The body of the commit loop of `reserve_items`: bump `reserved`,
invalidate the cache key, record the pair in `reservation_details`. -/
def reserveStep (acc : InventoryManager × List (Nat × Int)) (p : Nat × Int) :
    InventoryManager × List (Nat × Int) :=
  ({ acc.1 with
      inventory := amodify acc.1.inventory p.1
        (fun it => { it with reserved := it.reserved + p.2 }),
      cache := acc.1.cache.delete (itemKey p.1) },
   ainsert acc.2 p.1 p.2)

/-- `InventoryManager.reserve_items`.  The result is `none` when the call
raises: the `InsufficientInventory` error branch reads
`self.inventory[item_id]` unguarded, which raises `KeyError` when the first
failing pair's item id is unknown (nothing has been mutated at that point). -/
def InventoryManager.reserve_items (m : InventoryManager) (now : Nat)
    (order_id : String) (items : List (Nat × Int)) :
    Option (ReserveResult × InventoryManager) :=
  if (alookup m.reservations order_id).isSome then
    some (ReserveResult.duplicate order_id, m)
  else
    match items.find? (fun p => ! m.check_availability p.1 p.2) with
    | some (item_id, quantity) =>
      match alookup m.inventory item_id with
      | none => none
      | some item =>
        some (ReserveResult.insufficient item_id quantity
          (item.stock - item.reserved), m)
    | none =>
      let (m1, details) := items.foldl reserveStep (m, [])
      some (ReserveResult.reserved order_id details.length details,
        { m1 with reservations :=
            ainsert m1.reservations order_id ⟨details, now⟩ })

/-- Result of `release_reservation`. -/
inductive ReleaseResult where
  | notFound (order_id : String)
  | released (order_id : String) (items_released : Nat)
deriving Repr, DecidableEq

/-- The body of the loop of `release_reservation`: decrement `reserved` and
invalidate the cache key. -/
def releaseStep (m : InventoryManager) (p : Nat × Int) : InventoryManager :=
  { m with
      inventory := amodify m.inventory p.1
        (fun it => { it with reserved := it.reserved - p.2 }),
      cache := m.cache.delete (itemKey p.1) }

/-- `InventoryManager.release_reservation`. -/
def InventoryManager.release_reservation (m : InventoryManager) (order_id : String) :
    ReleaseResult × InventoryManager :=
  match alookup m.reservations order_id with
  | none => (ReleaseResult.notFound order_id, m)
  | some resv =>
    let m1 := resv.items.foldl releaseStep m
    (ReleaseResult.released order_id resv.items.length,
     { m1 with reservations := aerase m1.reservations order_id })

/-- Result of `adjust_inventory`. -/
inductive AdjustResult where
  | notFound (item_id : Nat)
  | negativeStock (item_id : Nat) (current_stock : Int) (adjustment : Int)
  | adjusted (item_id : Nat) (old_stock : Int) (new_stock : Int)
      (adjustment : Int) (reason : String)
deriving Repr, DecidableEq

/-- `InventoryManager.adjust_inventory`. -/
def InventoryManager.adjust_inventory (m : InventoryManager) (now : Nat)
    (item_id : Nat) (adjustment : Int) (reason : String) :
    AdjustResult × InventoryManager :=
  match alookup m.inventory item_id with
  | none => (AdjustResult.notFound item_id, m)
  | some item =>
    let old_stock := item.stock
    let new_stock := old_stock + adjustment
    if new_stock < 0 then
      (AdjustResult.negativeStock item_id old_stock adjustment, m)
    else
      (AdjustResult.adjusted item_id old_stock new_stock adjustment reason,
       { m with
          inventory := amodify m.inventory item_id
            (fun it => { it with stock := new_stock }),
          adjustment_log := m.adjustment_log ++
            [⟨item_id, old_stock, new_stock, adjustment, reason, now⟩],
          cache := m.cache.delete (itemKey item_id) })

/-- One output row of `get_low_stock_items`. -/
structure LowStockEntry where
  item_id : Nat
  name : String
  sku : String
  stock : Int
  reserved : Int
  available : Int
deriving Repr, DecidableEq

/-- The row built for catalog pair `p`. -/
def mkLowStockEntry (p : Nat × Item) : LowStockEntry :=
  { item_id := p.1, name := p.2.name, sku := p.2.sku, stock := p.2.stock,
    reserved := p.2.reserved, available := p.2.stock - p.2.reserved }

/-- `InventoryManager.get_low_stock_items`: filter to `available <=
threshold` in iteration order, then Python's stable `sorted` by
`available`. -/
def InventoryManager.get_low_stock_items (m : InventoryManager) (threshold : Int) :
    List LowStockEntry :=
  let low_stock :=
    (m.inventory.filter
      (fun p => decide (p.2.stock - p.2.reserved ≤ threshold))).map mkLowStockEntry
  low_stock.mergeSort (fun a b => decide (a.available ≤ b.available))

/-! ## Operation sequences

`LedgerOp` is one call into the ledger; `LedgerOp.apply` is its effect on
the state (results are dropped).  A `reserve` call whose first failing pair
has an unknown item id raises `KeyError` out of the call; no mutation has
happened at that point, so the state after the raise is the state before
the call. -/

inductive LedgerOp where
  | getItem (now : Nat) (item_id : Nat)
  | checkAvail (item_id : Nat) (quantity : Int)
  | reserve (now : Nat) (order_id : String) (items : List (Nat × Int))
  | release (order_id : String)
  | adjust (now : Nat) (item_id : Nat) (adjustment : Int) (reason : String)
  | lowStock (threshold : Int)

/-- Effect of one ledger call on the state. -/
def LedgerOp.apply (op : LedgerOp) (m : InventoryManager) : InventoryManager :=
  match op with
  | .getItem now id => (m.get_item now id).2
  | .checkAvail _ _ => m
  | .reserve now oid items =>
    match m.reserve_items now oid items with
    | some (_, m1) => m1
    | none => m
  | .release oid => (m.release_reservation oid).2
  | .adjust now id d r => (m.adjust_inventory now id d r).2
  | .lowStock _ => m

/-- Run a sequence of ledger calls. -/
def runLedgerOps (ops : List LedgerOp) (m : InventoryManager) : InventoryManager :=
  ops.foldl (fun m op => op.apply m) m

/-- Well-formed call: reserve requests name each item at most once with a
nonnegative quantity, and adjustments are nonnegative (receiving stock).
The amended C1 invariant is proved for sequences of such calls. -/
def LedgerOp.ok : LedgerOp → Prop
  | .reserve _ _ items => (items.map Prod.fst).Nodup ∧ ∀ p ∈ items, 0 ≤ p.2
  | .adjust _ _ d _ => 0 ≤ d
  | _ => True

/-- One call into the cache. -/
inductive CacheOp (α : Type) where
  | get (now : Nat) (key : String)
  | set (key : String) (value : α) (ttl : Nat) (now : Nat)
  | del (key : String)
  | clear

/-- Effect of one cache call on the cache state. -/
def CacheOp.apply {α : Type} (op : CacheOp α) (c : CacheManager α) : CacheManager α :=
  match op with
  | .get now k => (c.get now k).2
  | .set k v ttl now => c.set k v ttl now
  | .del k => c.delete k
  | .clear => c.clear

/-- Run a sequence of cache calls. -/
def runCacheOps {α : Type} (ops : List (CacheOp α)) (c : CacheManager α) : CacheManager α :=
  ops.foldl (fun c op => op.apply c) c

/-- Number of `get` requests in a sequence of cache calls. -/
def countGets {α : Type} (ops : List (CacheOp α)) : Nat :=
  (ops.filter (fun op => match op with | .get _ _ => true | _ => false)).length

/-! ## Proof-side helper functions -/

/-- The cumulative effect on the catalog of a reserve/release loop:
`f` is how one pair's quantity combines with the item's `reserved` field. -/
def mapReserved (f : Int → Int → Int) (inv : List (Nat × Item))
    (items : List (Nat × Int)) : List (Nat × Item) :=
  items.foldl
    (fun acc p => amodify acc p.1 (fun it => { it with reserved := f it.reserved p.2 }))
    inv

/-- The `reservation_details` dict built by the commit loop. -/
def dinsertAll (d : List (Nat × Int)) (items : List (Nat × Int)) : List (Nat × Int) :=
  items.foldl (fun d p => ainsert d p.1 p.2) d

/-- Total quantity of an item promised across all live reservations. -/
def resSum (rs : List (String × Reservation)) (id : Nat) : Int :=
  (rs.map (fun p => ((alookup p.2.items id).getD 0))).sum

/-- Both catalogs agree on projection `g` of every item (by id). -/
def sameProj {γ : Type} (g : Item → γ) (inv inv2 : List (Nat × Item)) : Prop :=
  ∀ j, (alookup inv2 j).map g = (alookup inv j).map g

/-- Items outside `touched` have identical records in both catalogs. -/
def untouchedOutside (inv inv2 : List (Nat × Item)) (touched : List Nat) : Prop :=
  ∀ j, j ∉ touched → alookup inv2 j = alookup inv j

/-- Inductive invariant of the ledger state: catalog and reservation keys
are unique, every stored reservation has unique item ids and nonnegative
quantities, and every item satisfies `0 ≤ reserved ≤ stock` with the total
promised across live reservations at most `reserved`. -/
def LedgerInv (m : InventoryManager) : Prop :=
  (m.inventory.map Prod.fst).Nodup ∧
  (m.reservations.map Prod.fst).Nodup ∧
  (∀ p ∈ m.reservations,
    (p.2.items.map Prod.fst).Nodup ∧ ∀ q ∈ p.2.items, 0 ≤ q.2) ∧
  (∀ j it, alookup m.inventory j = some it →
    0 ≤ it.reserved ∧ it.reserved ≤ it.stock ∧
    resSum m.reservations j ≤ it.reserved)

/-! String constants used as concrete inputs. -/

def keyK : String := "k"

def keyQ : String := "q"

def oidA : String := "O1"

def oidX : String := "OX"

def oidY : String := "OY"

def reasonA : String := "restock"

def oidB : String := "O2"


/-! ## Association-list lemmas -/

variable {κ β : Type} [DecidableEq κ]

theorem alookup_ainsert_self (l : List (κ × β)) (k : κ) (v : β) :
    alookup (ainsert l k v) k = some v := by
  induction l with
  | nil => simp [ainsert, alookup]
  | cons p rest ih =>
    by_cases h : p.1 = k
    · simp [ainsert, alookup, h]
    · simp [ainsert, alookup, h, ih]

theorem alookup_ainsert_ne (l : List (κ × β)) {j k : κ} (v : β) (h : j ≠ k) :
    alookup (ainsert l k v) j = alookup l j := by
  induction l with
  | nil => simp [ainsert, alookup, Ne.symm h]
  | cons p rest ih =>
    by_cases hp : p.1 = k
    · simp [ainsert, alookup, hp, Ne.symm h]
    · simp [ainsert, alookup, hp, ih]

theorem ainsert_of_lookup_none {l : List (κ × β)} {k : κ} (v : β)
    (h : alookup l k = none) : ainsert l k v = l ++ [(k, v)] := by
  induction l with
  | nil => simp [ainsert]
  | cons p rest ih =>
    by_cases hp : p.1 = k
    · simp [alookup, hp] at h
    · simp [alookup, hp] at h
      simp [ainsert, hp, ih h]

theorem alookup_append_of_none {l l2 : List (κ × β)} {k : κ}
    (h : alookup l k = none) : alookup (l ++ l2) k = alookup l2 k := by
  induction l with
  | nil => simp
  | cons p rest ih =>
    by_cases hp : p.1 = k
    · simp [alookup, hp] at h
    · simp [alookup, hp] at h
      simp [alookup, hp, ih h]

theorem aerase_cons (p : κ × β) (rest : List (κ × β)) (k : κ) :
    aerase (p :: rest) k =
      if p.1 = k then aerase rest k else p :: aerase rest k := by
  by_cases hp : p.1 = k <;> simp [aerase, List.filter_cons, hp]

theorem aerase_of_lookup_none {l : List (κ × β)} {k : κ}
    (h : alookup l k = none) : aerase l k = l := by
  induction l with
  | nil => rfl
  | cons p rest ih =>
    by_cases hp : p.1 = k
    · simp [alookup, hp] at h
    · simp [alookup, hp] at h
      rw [aerase_cons, if_neg hp, ih h]

theorem alookup_aerase_self (l : List (κ × β)) (k : κ) :
    alookup (aerase l k) k = none := by
  induction l with
  | nil => rfl
  | cons p rest ih =>
    by_cases hp : p.1 = k
    · rw [aerase_cons, if_pos hp]; exact ih
    · rw [aerase_cons, if_neg hp]
      simpa [alookup, hp] using ih

theorem alookup_aerase_ne (l : List (κ × β)) {j k : κ} (h : j ≠ k) :
    alookup (aerase l k) j = alookup l j := by
  induction l with
  | nil => rfl
  | cons p rest ih =>
    by_cases hp : p.1 = k
    · have hpj : ¬ p.1 = j := by rw [hp]; exact Ne.symm h
      rw [aerase_cons, if_pos hp, ih]
      simp [alookup, hpj]
    · rw [aerase_cons, if_neg hp]
      by_cases hj : p.1 = j
      · simp [alookup, hj]
      · simp [alookup, hj, ih]

theorem alookup_amodify_self (l : List (κ × β)) (k : κ) (f : β → β) :
    alookup (amodify l k f) k = (alookup l k).map f := by
  induction l with
  | nil => rfl
  | cons p rest ih =>
    by_cases hp : p.1 = k
    · simp [amodify, alookup, hp]
    · simp [amodify, alookup, hp, ih]

theorem alookup_amodify_ne (l : List (κ × β)) {j k : κ} (f : β → β) (h : j ≠ k) :
    alookup (amodify l k f) j = alookup l j := by
  induction l with
  | nil => rfl
  | cons p rest ih =>
    by_cases hp : p.1 = k
    · simp [amodify, alookup, hp, Ne.symm h]
    · by_cases hj : p.1 = j
      · simp [amodify, alookup, hp, hj, h]
      · simp [amodify, alookup, hp, hj, ih]

theorem amodify_of_lookup_none {l : List (κ × β)} {k : κ} (f : β → β)
    (h : alookup l k = none) : amodify l k f = l := by
  induction l with
  | nil => rfl
  | cons p rest ih =>
    by_cases hp : p.1 = k
    · simp [alookup, hp] at h
    · simp [alookup, hp] at h
      simp [amodify, hp, ih h]

theorem amodify_amodify_same (l : List (κ × β)) (k : κ) (f g : β → β) :
    amodify (amodify l k f) k g = amodify l k (fun v => g (f v)) := by
  induction l with
  | nil => rfl
  | cons p rest ih =>
    by_cases hp : p.1 = k
    · simp [amodify, hp]
    · simp [amodify, hp, ih]

theorem amodify_congr {l : List (κ × β)} {k : κ} {f : β → β}
    (h : ∀ v, f v = v) : amodify l k f = l := by
  induction l with
  | nil => rfl
  | cons p rest ih =>
    by_cases hp : p.1 = k
    · simp only [amodify, if_pos hp, h]
    · simp [amodify, hp, ih]

theorem amodify_comm (l : List (κ × β)) {j k : κ} (f g : β → β) (h : j ≠ k) :
    amodify (amodify l k f) j g = amodify (amodify l j g) k f := by
  induction l with
  | nil => rfl
  | cons p rest ih =>
    by_cases hp : p.1 = k
    · simp [amodify, hp, Ne.symm h]
    · by_cases hj : p.1 = j
      · simp [amodify, hp, hj, h]
      · simp [amodify, hp, hj, ih]

theorem amodify_keys (l : List (κ × β)) (k : κ) (f : β → β) :
    (amodify l k f).map Prod.fst = l.map Prod.fst := by
  induction l with
  | nil => rfl
  | cons p rest ih =>
    by_cases hp : p.1 = k
    · simp [amodify, hp]
    · simp [amodify, hp, ih]

theorem alookup_eq_none_iff {l : List (κ × β)} {k : κ} :
    alookup l k = none ↔ k ∉ l.map Prod.fst := by
  induction l with
  | nil => simp [alookup]
  | cons p rest ih =>
    by_cases hp : p.1 = k
    · simp [alookup, hp]
    · have hk : ¬ k = p.1 := fun hh => hp hh.symm
      simp [alookup, hp, ih, hk]

theorem alookup_mem {l : List (κ × β)} {k : κ} {v : β}
    (h : alookup l k = some v) : (k, v) ∈ l := by
  induction l with
  | nil => simp [alookup] at h
  | cons p rest ih =>
    by_cases hp : p.1 = k
    · simp [alookup, hp] at h
      have hkv : (k, v) = p := by rw [← hp, ← h]
      rw [hkv]
      exact List.mem_cons_self p rest
    · simp [alookup, hp] at h
      exact List.mem_cons_of_mem p (ih h)

theorem alookup_of_mem_nodup {l : List (κ × β)} {k : κ} {v : β}
    (hnd : (l.map Prod.fst).Nodup) (h : (k, v) ∈ l) : alookup l k = some v := by
  induction l with
  | nil => simp at h
  | cons p rest ih =>
    rw [List.map_cons, List.nodup_cons] at hnd
    rcases List.mem_cons.mp h with h1 | h1
    · rw [← h1]
      simp [alookup]
    · have hk : k ∈ rest.map Prod.fst := List.mem_map.mpr ⟨(k, v), h1, rfl⟩
      have hp : ¬ p.1 = k := by
        intro hh
        rw [hh] at hnd
        exact hnd.1 hk
      simp only [alookup, if_neg hp]
      exact ih hnd.2 h1

/-! ## Lemmas about the reserve/release loops -/

theorem mapReserved_nil (f : Int → Int → Int) (inv : List (Nat × Item)) :
    mapReserved f inv [] = inv := rfl

theorem mapReserved_cons (f : Int → Int → Int) (inv : List (Nat × Item))
    (p : Nat × Int) (items : List (Nat × Int)) :
    mapReserved f inv (p :: items) =
      mapReserved f
        (amodify inv p.1 (fun it => { it with reserved := f it.reserved p.2 })) items := rfl

theorem mapReserved_keys (f : Int → Int → Int) (inv : List (Nat × Item))
    (items : List (Nat × Int)) :
    (mapReserved f inv items).map Prod.fst = inv.map Prod.fst := by
  induction items generalizing inv with
  | nil => rfl
  | cons p rest ih => rw [mapReserved_cons, ih, amodify_keys]

theorem alookup_mapReserved_proj {γ : Type} (g : Item → γ)
    (hg : ∀ it v, g { it with reserved := v } = g it)
    (f : Int → Int → Int) (inv : List (Nat × Item)) (items : List (Nat × Int))
    (j : Nat) :
    (alookup (mapReserved f inv items) j).map g = (alookup inv j).map g := by
  induction items generalizing inv with
  | nil => rfl
  | cons p rest ih =>
    rw [mapReserved_cons, ih]
    by_cases hj : j = p.1
    · rw [hj, alookup_amodify_self]
      cases alookup inv p.1 with
      | none => rfl
      | some it => simp [hg]
    · rw [alookup_amodify_ne _ _ hj]

theorem alookup_mapReserved_not_mem (f : Int → Int → Int)
    (inv : List (Nat × Item)) (items : List (Nat × Int)) {j : Nat}
    (h : j ∉ items.map Prod.fst) :
    alookup (mapReserved f inv items) j = alookup inv j := by
  induction items generalizing inv with
  | nil => rfl
  | cons p rest ih =>
    rw [List.map_cons] at h
    have hj : j ≠ p.1 := fun hh => h (hh ▸ List.mem_cons_self _ _)
    have hr : j ∉ rest.map Prod.fst := fun hh => h (List.mem_cons_of_mem _ hh)
    rw [mapReserved_cons, ih _ hr, alookup_amodify_ne _ _ hj]

theorem alookup_mapReserved_nodup (f : Int → Int → Int)
    (inv : List (Nat × Item)) {items : List (Nat × Int)} {j : Nat} {q : Int}
    (hnd : (items.map Prod.fst).Nodup) (h : (j, q) ∈ items) :
    alookup (mapReserved f inv items) j =
      (alookup inv j).map (fun it => { it with reserved := f it.reserved q }) := by
  induction items generalizing inv with
  | nil => simp at h
  | cons p rest ih =>
    rw [List.map_cons, List.nodup_cons] at hnd
    rcases List.mem_cons.mp h with h1 | h1
    · have hj : j = p.1 := by rw [← h1]
      have hq : q = p.2 := by rw [← h1]
      have hjr : j ∉ rest.map Prod.fst := by rw [hj]; exact hnd.1
      rw [mapReserved_cons, alookup_mapReserved_not_mem _ _ _ hjr, hj, hq,
        alookup_amodify_self]
    · have hj : j ≠ p.1 := by
        intro hh
        exact hnd.1 (hh ▸ List.mem_map.mpr ⟨(j, q), h1, rfl⟩)
      rw [mapReserved_cons, ih _ hnd.2 h1, alookup_amodify_ne _ _ hj]

theorem amodify_mapReserved_comm (f : Int → Int → Int)
    (inv : List (Nat × Item)) (items : List (Nat × Int)) {j : Nat}
    (g : Item → Item) (h : j ∉ items.map Prod.fst) :
    amodify (mapReserved f inv items) j g =
      mapReserved f (amodify inv j g) items := by
  induction items generalizing inv with
  | nil => rfl
  | cons p rest ih =>
    rw [List.map_cons] at h
    have hj : j ≠ p.1 := fun hh => h (hh ▸ List.mem_cons_self _ _)
    have hr : j ∉ rest.map Prod.fst := fun hh => h (List.mem_cons_of_mem _ hh)
    rw [mapReserved_cons, mapReserved_cons, ih _ hr, amodify_comm _ _ _ hj]

theorem mapReserved_roundtrip (inv : List (Nat × Item))
    {items : List (Nat × Int)} (hnd : (items.map Prod.fst).Nodup) :
    mapReserved (fun r q => r - q)
      (mapReserved (fun r q => r + q) inv items) items = inv := by
  induction items generalizing inv with
  | nil => rfl
  | cons p rest ih =>
    rw [List.map_cons, List.nodup_cons] at hnd
    rw [mapReserved_cons, mapReserved_cons,
      amodify_mapReserved_comm _ _ _ _ hnd.1, amodify_amodify_same]
    have : amodify inv p.1
        (fun it => { ({ it with reserved := it.reserved + p.2 } : Item) with
          reserved := { it with reserved := it.reserved + p.2 }.reserved - p.2 }) = inv := by
      apply amodify_congr
      intro it
      simp
    rw [this, ih _ hnd.2]

theorem dinsertAll_eq_append (d : List (Nat × Int)) {items : List (Nat × Int)}
    (hfresh : ∀ p ∈ items, alookup d p.1 = none)
    (hnd : (items.map Prod.fst).Nodup) : dinsertAll d items = d ++ items := by
  induction items generalizing d with
  | nil => simp [dinsertAll]
  | cons p rest ih =>
    rw [List.map_cons, List.nodup_cons] at hnd
    have hstep : ainsert d p.1 p.2 = d ++ [p] := by
      rw [ainsert_of_lookup_none _ (hfresh p (List.mem_cons_self _ _))]
    have hfresh2 : ∀ q ∈ rest, alookup (d ++ [p]) q.1 = none := by
      intro q hq
      rw [alookup_append_of_none (hfresh q (List.mem_cons_of_mem _ hq))]
      have : ¬ p.1 = q.1 :=
        fun hh => hnd.1 (hh ▸ List.mem_map.mpr ⟨q, hq, rfl⟩)
      simp [alookup, this]
    show dinsertAll (ainsert d p.1 p.2) rest = d ++ p :: rest
    rw [hstep, ih (d ++ [p]) hfresh2 hnd.2, List.append_assoc]
    rfl

/-! ## Lemmas about `resSum` -/

theorem resSum_nil (id : Nat) : resSum [] id = 0 := rfl

theorem resSum_append (l l2 : List (String × Reservation)) (id : Nat) :
    resSum (l ++ l2) id = resSum l id + resSum l2 id := by
  simp [resSum]

theorem resSum_nonneg {rs : List (String × Reservation)}
    (h : ∀ p ∈ rs, ∀ q ∈ p.2.items, 0 ≤ q.2) (id : Nat) : 0 ≤ resSum rs id := by
  apply List.sum_nonneg
  intro x hx
  rcases List.mem_map.mp hx with ⟨p, hp, rfl⟩
  cases hq : alookup p.2.items id with
  | none => simp
  | some q =>
    simpa using h p hp (id, q) (alookup_mem hq)

theorem resSum_aerase {rs : List (String × Reservation)} {oid : String}
    {r : Reservation} (hnd : (rs.map Prod.fst).Nodup)
    (h : alookup rs oid = some r) (id : Nat) :
    resSum rs id = resSum (aerase rs oid) id + (alookup r.items id).getD 0 := by
  induction rs with
  | nil => simp [alookup] at h
  | cons p rest ih =>
    rw [List.map_cons, List.nodup_cons] at hnd
    by_cases hp : p.1 = oid
    · simp [alookup, hp] at h
      have hnone : alookup rest oid = none := by
        rw [alookup_eq_none_iff]
        rw [hp] at hnd
        exact hnd.1
      rw [aerase_cons, if_pos hp, aerase_of_lookup_none hnone]
      simp [resSum, h]
      ring
    · simp only [alookup, if_neg hp] at h
      rw [aerase_cons, if_neg hp]
      have := ih hnd.2 h
      simp only [resSum, List.map_cons, List.sum_cons] at *
      rw [this]
      ring

/-! ## Projections of the commit loops -/

theorem foldl_reserveStep_inventory (items : List (Nat × Int))
    (m : InventoryManager) (d : List (Nat × Int)) :
    (items.foldl reserveStep (m, d)).1.inventory =
      mapReserved (fun r q => r + q) m.inventory items := by
  induction items generalizing m d with
  | nil => rfl
  | cons p rest ih => rw [List.foldl_cons, ih, mapReserved_cons]; rfl

theorem foldl_reserveStep_reservations (items : List (Nat × Int))
    (m : InventoryManager) (d : List (Nat × Int)) :
    (items.foldl reserveStep (m, d)).1.reservations = m.reservations := by
  induction items generalizing m d with
  | nil => rfl
  | cons p rest ih => rw [List.foldl_cons, ih]; rfl

theorem foldl_reserveStep_log (items : List (Nat × Int))
    (m : InventoryManager) (d : List (Nat × Int)) :
    (items.foldl reserveStep (m, d)).1.adjustment_log = m.adjustment_log := by
  induction items generalizing m d with
  | nil => rfl
  | cons p rest ih => rw [List.foldl_cons, ih]; rfl

theorem foldl_reserveStep_details (items : List (Nat × Int))
    (m : InventoryManager) (d : List (Nat × Int)) :
    (items.foldl reserveStep (m, d)).2 = dinsertAll d items := by
  induction items generalizing m d with
  | nil => rfl
  | cons p rest ih => rw [List.foldl_cons, ih]; rfl

theorem foldl_releaseStep_inventory (items : List (Nat × Int))
    (m : InventoryManager) :
    (items.foldl releaseStep m).inventory =
      mapReserved (fun r q => r - q) m.inventory items := by
  induction items generalizing m with
  | nil => rfl
  | cons p rest ih => rw [List.foldl_cons, ih, mapReserved_cons]; rfl

theorem foldl_releaseStep_reservations (items : List (Nat × Int))
    (m : InventoryManager) :
    (items.foldl releaseStep m).reservations = m.reservations := by
  induction items generalizing m with
  | nil => rfl
  | cons p rest ih => rw [List.foldl_cons, ih]; rfl

theorem foldl_releaseStep_log (items : List (Nat × Int)) (m : InventoryManager) :
    (items.foldl releaseStep m).adjustment_log = m.adjustment_log := by
  induction items generalizing m with
  | nil => rfl
  | cons p rest ih => rw [List.foldl_cons, ih]; rfl

/-- `reserve_items` on the success path, unfolded to its commit loop. -/
theorem reserve_items_success {m : InventoryManager} {now : Nat} {oid : String}
    {items : List (Nat × Int)}
    (hres : alookup m.reservations oid = none)
    (hfind : items.find? (fun p => ! m.check_availability p.1 p.2) = none) :
    m.reserve_items now oid items =
      some (ReserveResult.reserved oid (items.foldl reserveStep (m, [])).2.length
          (items.foldl reserveStep (m, [])).2,
        { (items.foldl reserveStep (m, [])).1 with
            reservations := ainsert (items.foldl reserveStep (m, [])).1.reservations
              oid ⟨(items.foldl reserveStep (m, [])).2, now⟩ }) := by
  rw [InventoryManager.reserve_items, if_neg (by rw [hres]; simp), hfind]

/-! ## Cache accounting lemmas -/

theorem ratFloor_eq (q : ℚ) : Rat.floor q = ⌊q⌋ := by
  rw [Rat.floor_def, Rat.floor_def']

theorem pyRound2_zero : pyRound2 0 = 0 := by
  rw [pyRound2, roundHalfEven]
  norm_num [ratFloor_eq]

theorem cacheOp_apply_requests {α : Type} (op : CacheOp α) (c : CacheManager α) :
    (op.apply c).hits + (op.apply c).misses =
      c.hits + c.misses +
        (match op with | .get _ _ => 1 | _ => 0) := by
  cases op with
  | get now k =>
    show ((c.get now k).2.hits + (c.get now k).2.misses = _)
    rw [CacheManager.get]
    cases alookup c.cache k with
    | none => simp; ring
    | some v =>
      cases alookup c.expiry k with
      | none => simp; ring
      | some exp =>
        by_cases h : now > exp
        · simp [h]; ring
        · simp [h]; ring
  | set k v ttl now => rfl
  | del k =>
    show ((c.delete k).hits + (c.delete k).misses = _)
    rw [CacheManager.delete]
    by_cases h : (alookup c.cache k).isSome <;> simp [h]
  | clear => rfl

theorem countGets_cons {α : Type} (op : CacheOp α) (ops : List (CacheOp α)) :
    countGets (op :: ops) =
      (match op with | .get _ _ => 1 | _ => 0) + countGets ops := by
  cases op
  all_goals simp [countGets, List.filter_cons]
  all_goals omega

theorem runCacheOps_requests {α : Type} (ops : List (CacheOp α)) (c : CacheManager α) :
    (runCacheOps ops c).hits + (runCacheOps ops c).misses =
      c.hits + c.misses + countGets ops := by
  induction ops generalizing c with
  | nil => simp [runCacheOps, countGets]
  | cons op rest ih =>
    show (runCacheOps rest (op.apply c)).hits + (runCacheOps rest (op.apply c)).misses = _
    rw [ih, cacheOp_apply_requests, countGets_cons]
    ring

theorem get_status_hit_rate {α : Type} (c : CacheManager α) :
    c.get_status.hit_rate =
      if c.hits + c.misses = 0 then 0
      else pyRound2 ((c.hits : ℚ) / ((c.hits : ℚ) + (c.misses : ℚ)) * 100) := by
  rw [CacheManager.get_status]
  by_cases h : c.hits + c.misses = 0
  · simp [h, pyRound2_zero]
  · have hpos : 0 < c.hits + c.misses := Nat.pos_of_ne_zero h
    simp only [h, if_false, hpos, if_true]
    norm_num

theorem cache_delete_lookup {α : Type} (c : CacheManager α) (k : String) :
    alookup (c.delete k).cache k = none := by
  rw [CacheManager.delete]
  by_cases h : (alookup c.cache k).isSome
  · simp only [h, if_true]
    exact alookup_aerase_self _ _
  · simp only [h, if_false]
    exact Option.not_isSome_iff_eq_none.mp h

/-! ## Claim theorems -/

/-- C8: a cache `get` performed after `set(k, v, ttl)` while the ttl has not
yet elapsed (`t1 ≤ t0 + ttl`) returns `v` and increments the hit counter by
one, leaving the miss counter and the stored entries unchanged; a `get`
performed after the ttl has elapsed (`t1 > t0 + ttl`, no intervening set)
returns absent, evicts the entry, and increments the miss counter by one. -/
theorem cache_set_get_ttl_spec {α : Type} (c : CacheManager α) (k : String)
    (v : α) (ttl t0 t1 : Nat) :
    (t1 ≤ t0 + ttl →
      ((c.set k v ttl t0).get t1 k).1 = some v ∧
      ((c.set k v ttl t0).get t1 k).2.hits = c.hits + 1 ∧
      ((c.set k v ttl t0).get t1 k).2.misses = c.misses ∧
      ((c.set k v ttl t0).get t1 k).2.cache = (c.set k v ttl t0).cache) ∧
    (t0 + ttl < t1 →
      ((c.set k v ttl t0).get t1 k).1 = none ∧
      ((c.set k v ttl t0).get t1 k).2.misses = c.misses + 1 ∧
      ((c.set k v ttl t0).get t1 k).2.hits = c.hits ∧
      alookup ((c.set k v ttl t0).get t1 k).2.cache k = none ∧
      alookup ((c.set k v ttl t0).get t1 k).2.expiry k = none) := by
  have hc : alookup (ainsert c.cache k v) k = some v :=
    alookup_ainsert_self _ _ _
  have he : alookup (ainsert c.expiry k (t0 + ttl)) k = some (t0 + ttl) :=
    alookup_ainsert_self _ _ _
  constructor
  · intro h
    have hng : ¬ t1 > t0 + ttl := not_lt.mpr h
    simp [CacheManager.get, hc, he, hng, CacheManager.set]
  · intro h
    simp [CacheManager.get, hc, he, h, CacheManager.set, alookup_aerase_self]

/-- Witness for C8 at a concrete cache, key, value and times. -/
theorem cache_set_get_ttl_spec_witness :
    (((CacheManager.empty : CacheManager Nat).set keyK 7 10 0).get 5 keyK).1 = some 7 ∧
    (((CacheManager.empty : CacheManager Nat).set keyK 7 10 0).get 11 keyK).1 = none :=
  ⟨((cache_set_get_ttl_spec CacheManager.empty keyK 7 10 0 5).1 (by decide)).1,
   ((cache_set_get_ttl_spec CacheManager.empty keyK 7 10 0 11).2 (by decide)).1⟩

/-- C9 (amended): after any sequence of cache operations the hit and miss
counters sum to the number of `get` requests made, and the reported
`hit_rate` is the percentage `hits / (hits + misses) * 100` rounded to two
decimal places — not the bare ratio — and `0` when no get requests have
been made yet. -/
theorem cache_status_hit_rate_spec {α : Type} (ops : List (CacheOp α)) :
    (runCacheOps ops CacheManager.empty).hits +
        (runCacheOps ops CacheManager.empty).misses = countGets ops ∧
    (runCacheOps ops CacheManager.empty).get_status.hit_rate =
      (if countGets ops = 0 then 0
       else pyRound2 (((runCacheOps ops CacheManager.empty).hits : ℚ) /
         (countGets ops : ℚ) * 100)) := by
  have hreq : (runCacheOps ops (CacheManager.empty : CacheManager α)).hits +
      (runCacheOps ops (CacheManager.empty : CacheManager α)).misses = countGets ops := by
    have h := runCacheOps_requests ops (CacheManager.empty : CacheManager α)
    rw [show (CacheManager.empty : CacheManager α).hits = 0 from rfl,
      show (CacheManager.empty : CacheManager α).misses = 0 from rfl] at h
    omega
  refine ⟨hreq, ?_⟩
  rw [get_status_hit_rate, hreq]
  rcases Nat.eq_zero_or_pos (countGets ops) with h0 | hpos
  · simp [h0]
  · have hne : countGets ops ≠ 0 := Nat.pos_iff_ne_zero.mp hpos
    rw [if_neg hne, if_neg hne]
    have : ((runCacheOps ops CacheManager.empty).hits : ℚ) +
        ((runCacheOps ops CacheManager.empty).misses : ℚ) = (countGets ops : ℚ) := by
      rw [← Nat.cast_add, hreq]
    rw [this]

/-- C9 counterexample: a run with one hit and one miss reports hit rate 50
(a rounded percentage), which differs from hits/(hits+misses) = 1/2. -/
theorem cache_status_hit_rate_counterexample :
    (runCacheOps [CacheOp.set keyK 3 60 0, CacheOp.get 1 keyK, CacheOp.get 1 keyQ]
        (CacheManager.empty : CacheManager Nat)).hits = 1 ∧
    (runCacheOps [CacheOp.set keyK 3 60 0, CacheOp.get 1 keyK, CacheOp.get 1 keyQ]
        (CacheManager.empty : CacheManager Nat)).misses = 1 ∧
    (runCacheOps [CacheOp.set keyK 3 60 0, CacheOp.get 1 keyK, CacheOp.get 1 keyQ]
        (CacheManager.empty : CacheManager Nat)).get_status.hit_rate = 50 ∧
    (runCacheOps [CacheOp.set keyK 3 60 0, CacheOp.get 1 keyK, CacheOp.get 1 keyQ]
        (CacheManager.empty : CacheManager Nat)).get_status.hit_rate ≠
      ((runCacheOps [CacheOp.set keyK 3 60 0, CacheOp.get 1 keyK, CacheOp.get 1 keyQ]
          (CacheManager.empty : CacheManager Nat)).hits : ℚ) /
        (((runCacheOps [CacheOp.set keyK 3 60 0, CacheOp.get 1 keyK, CacheOp.get 1 keyQ]
          (CacheManager.empty : CacheManager Nat)).hits : ℚ) +
         ((runCacheOps [CacheOp.set keyK 3 60 0, CacheOp.get 1 keyK, CacheOp.get 1 keyQ]
          (CacheManager.empty : CacheManager Nat)).misses : ℚ)) := by
  have hrun : runCacheOps [CacheOp.set keyK 3 60 0, CacheOp.get 1 keyK, CacheOp.get 1 keyQ]
      (CacheManager.empty : CacheManager Nat) =
      { cache := [(keyK, 3)], expiry := [(keyK, 60)], hits := 1, misses := 1 } := by
    decide
  rw [hrun]
  have hrate : ({ cache := [(keyK, 3)], expiry := [(keyK, 60)], hits := 1, misses := 1 } :
      CacheManager Nat).get_status.hit_rate = 50 := by
    rw [CacheManager.get_status]
    norm_num [pyRound2, roundHalfEven, ratFloor_eq]
  refine ⟨rfl, rfl, hrate, ?_⟩
  rw [hrate]
  norm_num

/-- C5: `check_availability` is false for ids not in the catalog, otherwise
decides `available = stock - reserved ≥ qty` against live ledger state and
independently of the cache contents; on the seeded catalog item 1001 has
stock 47 and reserved 3, so 44 is available and 45 is not. -/
theorem check_availability_spec :
    (∀ (m : InventoryManager) (id : Nat) (q : Int),
      alookup m.inventory id = none → m.check_availability id q = false) ∧
    (∀ (m : InventoryManager) (id : Nat) (q : Int) (it : Item),
      alookup m.inventory id = some it →
      (m.check_availability id q = true ↔ q ≤ it.stock - it.reserved)) ∧
    (∀ (m : InventoryManager) (id : Nat) (q : Int) (c : CacheManager Snapshot),
      ({ m with cache := c } : InventoryManager).check_availability id q =
        m.check_availability id q) ∧
    (alookup initialManager.inventory 1001).map Item.stock = some 47 ∧
    (alookup initialManager.inventory 1001).map Item.reserved = some 3 ∧
    initialManager.check_availability 1001 44 = true ∧
    initialManager.check_availability 1001 45 = false := by
  refine ⟨?_, ?_, ?_, by decide, by decide, by decide, by decide⟩
  · intro m id q h
    rw [InventoryManager.check_availability, h]
  · intro m id q it h
    rw [InventoryManager.check_availability, h]
    simp [ge_iff_le]
  · intro m id q c
    rfl

/-- Witness for C5 at concrete inputs. -/
theorem check_availability_spec_witness :
    initialManager.check_availability 9999 1 = false ∧
    (initialManager.check_availability 1001 44 = true ↔ (44 : ℤ) ≤ 47 - 3) :=
  ⟨check_availability_spec.1 initialManager 9999 1 (by decide),
   check_availability_spec.2.1 initialManager 1001 44
     ⟨1001, "Laptop Pro 15\"", 47, 3, "LAP-PRO-15"⟩ (by decide)⟩

/-- C4: when the order id already has a live reservation, `reserve_items`
fails with the duplicate-reservation error and returns the state
completely unchanged (inventory, reservations, adjustment log and cache),
whatever the items argument. -/
theorem reserve_items_duplicate_spec (m : InventoryManager) (now : Nat)
    (oid : String) (items : List (Nat × Int))
    (h : (alookup m.reservations oid).isSome = true) :
    m.reserve_items now oid items = some (ReserveResult.duplicate oid, m) := by
  rw [InventoryManager.reserve_items, if_pos h]

/-- Witness for C4: a second reserve for the same order id. -/
theorem reserve_items_duplicate_spec_witness :
    ({ initialManager with
        reservations := [(oidA, ⟨[(1001, 5)], 0⟩)] }).reserve_items 1 oidA [(1002, 1)] =
      some (ReserveResult.duplicate oidA,
        { initialManager with reservations := [(oidA, ⟨[(1001, 5)], 0⟩)] }) :=
  reserve_items_duplicate_spec _ 1 oidA [(1002, 1)] (by decide)

/-- C3 (code bug in the error branch): a reserve whose first failing pair
has an unknown item id raises `KeyError` (modelled as `none`) instead of
returning the documented structured result; with a known but insufficient
item the structured `InsufficientInventory` data is returned and the state
is unchanged. -/
theorem reserve_items_unknown_id_spec :
    initialManager.check_availability 9999 1 = false ∧
    initialManager.reserve_items 0 oidX [(9999, 1)] = none ∧
    initialManager.reserve_items 0 oidY [(1001, 1000)] =
      some (ReserveResult.insufficient 1001 1000 44, initialManager) := by
  decide

/-- C6: `adjust_inventory` returns the not-found error and changes nothing
for an unknown item; for a known item it computes `new_stock = stock +
delta`, rejects with the negative-stock error and changes nothing when
`new_stock < 0`, and otherwise commits the new stock, appends exactly one
adjustment-log entry, invalidates the item's cache entry, returns old
stock, new stock and the delta, and leaves the reservations untouched. -/
theorem adjust_inventory_spec (m : InventoryManager) (now : Nat) (id : Nat)
    (delta : Int) (reason : String) :
    (alookup m.inventory id = none →
      m.adjust_inventory now id delta reason = (AdjustResult.notFound id, m)) ∧
    (∀ it : Item, alookup m.inventory id = some it →
      (it.stock + delta < 0 →
        m.adjust_inventory now id delta reason =
          (AdjustResult.negativeStock id it.stock delta, m)) ∧
      (0 ≤ it.stock + delta →
        (m.adjust_inventory now id delta reason).1 =
          AdjustResult.adjusted id it.stock (it.stock + delta) delta reason ∧
        alookup (m.adjust_inventory now id delta reason).2.inventory id =
          some { it with stock := it.stock + delta } ∧
        (m.adjust_inventory now id delta reason).2.adjustment_log =
          m.adjustment_log ++ [⟨id, it.stock, it.stock + delta, delta, reason, now⟩] ∧
        alookup (m.adjust_inventory now id delta reason).2.cache.cache (itemKey id) = none ∧
        (m.adjust_inventory now id delta reason).2.reservations = m.reservations)) := by
  constructor
  · intro h
    rw [InventoryManager.adjust_inventory, h]
  · intro it h
    constructor
    · intro hneg
      rw [InventoryManager.adjust_inventory, h]
      simp only [if_pos hneg]
    · intro hpos
      have hno : ¬ it.stock + delta < 0 := not_lt.mpr hpos
      rw [InventoryManager.adjust_inventory, h]
      simp only [if_neg hno]
      refine ⟨by trivial, ?_, by trivial, ?_, by trivial⟩
      · rw [alookup_amodify_self, h]
        rfl
      · exact cache_delete_lookup _ _

/-- Witness for C6: restocking seeded item 1001 by 100. -/
theorem adjust_inventory_spec_witness :
    (initialManager.adjust_inventory 0 1001 100 reasonA).1 =
      AdjustResult.adjusted 1001 47 (47 + 100) 100 reasonA ∧
    (initialManager.adjust_inventory 0 1001 (-10000) reasonA) =
      (AdjustResult.negativeStock 1001 47 (-10000), initialManager) ∧
    initialManager.adjust_inventory 0 9999 5 reasonA =
      (AdjustResult.notFound 9999, initialManager) :=
  ⟨(((adjust_inventory_spec initialManager 0 1001 100 reasonA).2
      ⟨1001, "Laptop Pro 15\"", 47, 3, "LAP-PRO-15"⟩ (by decide)).2 (by decide)).1,
   ((adjust_inventory_spec initialManager 0 1001 (-10000) reasonA).2
      ⟨1001, "Laptop Pro 15\"", 47, 3, "LAP-PRO-15"⟩ (by decide)).1 (by decide),
   (adjust_inventory_spec initialManager 0 9999 5 reasonA).1 (by decide)⟩

/-- C7: `get_low_stock_items t` is sorted ascending by `available`; every
row satisfies `available = stock - reserved ≤ t`; every catalog item with
`available ≤ t` contributes its row; and no item with `available > t`
appears. -/
theorem get_low_stock_items_spec (m : InventoryManager) (t : Int) :
    List.Pairwise (fun a b => a.available ≤ b.available) (m.get_low_stock_items t) ∧
    (∀ e ∈ m.get_low_stock_items t,
      e.available ≤ t ∧ e.available = e.stock - e.reserved) ∧
    (∀ p ∈ m.inventory, p.2.stock - p.2.reserved ≤ t →
      mkLowStockEntry p ∈ m.get_low_stock_items t) ∧
    (∀ p ∈ m.inventory, t < p.2.stock - p.2.reserved →
      mkLowStockEntry p ∉ m.get_low_stock_items t) := by
  have hperm := List.mergeSort_perm
    ((m.inventory.filter
      (fun p => decide (p.2.stock - p.2.reserved ≤ t))).map mkLowStockEntry)
    (fun a b => decide (a.available ≤ b.available))
  have hmem : ∀ e, e ∈ m.get_low_stock_items t ↔
      e ∈ (m.inventory.filter
        (fun p => decide (p.2.stock - p.2.reserved ≤ t))).map mkLowStockEntry := by
    intro e
    exact hperm.mem_iff
  have hrow : ∀ e ∈ m.get_low_stock_items t,
      e.available ≤ t ∧ e.available = e.stock - e.reserved := by
    intro e he
    rcases List.mem_map.mp ((hmem e).mp he) with ⟨p, hp, rfl⟩
    have := List.of_mem_filter hp
    simp only [decide_eq_true_eq] at this
    exact ⟨this, rfl⟩
  refine ⟨?_, hrow, ?_, ?_⟩
  · have hs := @List.sorted_mergeSort LowStockEntry
      (fun a b => decide (a.available ≤ b.available))
      (fun a b c hab hbc => by
        simp only [decide_eq_true_eq] at *
        exact le_trans hab hbc)
      (fun a b => by
        simp only [Bool.or_eq_true, decide_eq_true_eq]
        exact Int.le_total _ _)
      ((m.inventory.filter
        (fun p => decide (p.2.stock - p.2.reserved ≤ t))).map mkLowStockEntry)
    exact hs.imp (fun h => by simpa using h)
  · intro p hp hle
    rw [hmem]
    exact List.mem_map.mpr ⟨p, List.mem_filter.mpr ⟨hp, by simpa using hle⟩, rfl⟩
  · intro p hp hgt he
    have := (hrow _ he).1
    rw [show (mkLowStockEntry p).available = p.2.stock - p.2.reserved from rfl] at this
    exact absurd this (not_le.mpr hgt)

/-- Witness for C7 on the seeded catalog with threshold 10. -/
theorem get_low_stock_items_spec_witness :
    mkLowStockEntry (1009, ⟨1009, "Laptop Stand", 5, 0, "STD-LAP-01"⟩) ∈
      initialManager.get_low_stock_items 10 ∧
    mkLowStockEntry (1002, ⟨1002, "Wireless Mouse", 234, 12, "MSE-WRL-01"⟩) ∉
      initialManager.get_low_stock_items 10 :=
  ⟨(get_low_stock_items_spec initialManager 10).2.2.1
      (1009, ⟨1009, "Laptop Stand", 5, 0, "STD-LAP-01"⟩) (by decide) (by decide),
   (get_low_stock_items_spec initialManager 10).2.2.2
      (1002, ⟨1002, "Wireless Mouse", 234, 12, "MSE-WRL-01"⟩) (by decide) (by decide)⟩

theorem foldl_reserveStep_cache (items : List (Nat × Int))
    (m : InventoryManager) (d : List (Nat × Int)) :
    (items.foldl reserveStep (m, d)).1.cache =
      items.foldl (fun c p => c.delete (itemKey p.1)) m.cache := by
  induction items generalizing m d with
  | nil => rfl
  | cons p rest ih => rw [List.foldl_cons, ih]; rfl

theorem find?_eq_none_of_all_available {m : InventoryManager}
    {items : List (Nat × Int)}
    (hav : ∀ p ∈ items, m.check_availability p.1 p.2 = true) :
    items.find? (fun p => ! m.check_availability p.1 p.2) = none := by
  rw [List.find?_eq_none]
  intro p hp
  simp [hav p hp]

theorem aerase_append (l l2 : List (κ × β)) (k : κ) :
    aerase (l ++ l2) k = aerase l k ++ aerase l2 k := by
  simp [aerase]

/-- The success path of `reserve_items`, with each state component spelled
out: each `reserved` is bumped, each touched cache key invalidated, the
reservation recorded (its details dict equals the request list when the
item ids are distinct), nothing else changed. -/
theorem reserve_items_success_fields {m : InventoryManager} {now : Nat}
    {oid : String} {items : List (Nat × Int)}
    (hres : alookup m.reservations oid = none)
    (hav : ∀ p ∈ items, m.check_availability p.1 p.2 = true)
    (hnd : (items.map Prod.fst).Nodup) :
    m.reserve_items now oid items =
      some (ReserveResult.reserved oid items.length items,
        { cache := items.foldl (fun c p => c.delete (itemKey p.1)) m.cache,
          inventory := mapReserved (fun r q => r + q) m.inventory items,
          reservations := m.reservations ++ [(oid, ⟨items, now⟩)],
          adjustment_log := m.adjustment_log }) := by
  rw [reserve_items_success hres (find?_eq_none_of_all_available hav)]
  have hdet : (items.foldl reserveStep (m, ([] : List (Nat × Int)))).2 = items := by
    rw [foldl_reserveStep_details, dinsertAll_eq_append [] (fun p _ => rfl) hnd]
    rfl
  have hai : ainsert m.reservations oid ⟨items, now⟩ =
      m.reservations ++ [(oid, ⟨items, now⟩)] := ainsert_of_lookup_none _ hres
  simp only [hdet, foldl_reserveStep_cache, foldl_reserveStep_inventory,
    foldl_reserveStep_log, foldl_reserveStep_reservations, hai]

/-- C2 (amended with pairwise-distinct item ids): when the order id has no
live reservation, the request names each item at most once, and every pair
passes the availability check, `reserve_items` succeeds, increases each
named item's `reserved` by exactly the requested quantity, and a subsequent
`release_reservation` of that order restores the whole catalog (in
particular every `reserved` field) and the reservations table to their
values before the reserve call. -/
theorem reserve_release_roundtrip_spec (m : InventoryManager) (now : Nat)
    (oid : String) (items : List (Nat × Int))
    (hres : alookup m.reservations oid = none)
    (hnd : (items.map Prod.fst).Nodup)
    (hav : ∀ p ∈ items, m.check_availability p.1 p.2 = true) :
    (m.reserve_items now oid items).map Prod.fst =
      some (ReserveResult.reserved oid items.length items) ∧
    (∀ p ∈ items,
      (m.reserve_items now oid items).map
        (fun rm => (alookup rm.2.inventory p.1).map Item.reserved) =
      some ((alookup m.inventory p.1).map (fun it => it.reserved + p.2))) ∧
    (m.reserve_items now oid items).map
        (fun rm => (rm.2.release_reservation oid).1) =
      some (ReleaseResult.released oid items.length) ∧
    (m.reserve_items now oid items).map
        (fun rm => (rm.2.release_reservation oid).2.inventory) =
      some m.inventory ∧
    (m.reserve_items now oid items).map
        (fun rm => (rm.2.release_reservation oid).2.reservations) =
      some m.reservations := by
  rw [reserve_items_success_fields hres hav hnd]
  simp only [Option.map_some']
  have hfound : alookup (m.reservations ++ [(oid, (⟨items, now⟩ : Reservation))]) oid =
      some ⟨items, now⟩ := by
    rw [alookup_append_of_none hres]
    simp [alookup]
  constructor
  · trivial
  constructor
  · intro p hp
    rw [Option.some.injEq,
      alookup_mapReserved_nodup (fun r q => r + q) m.inventory hnd hp]
    cases alookup m.inventory p.1 <;> rfl
  rw [InventoryManager.release_reservation]
  simp only [hfound]
  refine ⟨trivial, ?_, ?_⟩
  · rw [Option.some.injEq, foldl_releaseStep_inventory]
    exact mapReserved_roundtrip m.inventory hnd
  · rw [Option.some.injEq, foldl_releaseStep_reservations]
    show aerase (m.reservations ++ [(oid, (⟨items, now⟩ : Reservation))]) oid =
      m.reservations
    rw [aerase_append, aerase_of_lookup_none hres]
    simp [aerase, List.filter_cons]

/-- Witness for C2 at a concrete two-item reservation. -/
theorem reserve_release_roundtrip_spec_witness :
    (initialManager.reserve_items 0 oidB [(1001, 5), (1002, 10)]).map Prod.fst =
      some (ReserveResult.reserved oidB 2 [(1001, 5), (1002, 10)]) ∧
    (initialManager.reserve_items 0 oidB [(1001, 5), (1002, 10)]).map
        (fun rm => (rm.2.release_reservation oidB).2.inventory) =
      some initialManager.inventory :=
  ⟨(reserve_release_roundtrip_spec initialManager 0 oidB [(1001, 5), (1002, 10)]
      (by decide) (by decide) (by decide)).1,
   (reserve_release_roundtrip_spec initialManager 0 oidB [(1001, 5), (1002, 10)]
      (by decide) (by decide) (by decide)).2.2.2.1⟩

/-- C2 counterexample: with the same item id listed twice, the reserve
bumps `reserved` by the sum but records only the last pair, so the release
does not restore the pre-reservation value (item 1001 starts at 3, ends at
4). -/
theorem reserve_release_roundtrip_counterexample :
    (initialManager.reserve_items 0 oidA [(1001, 1), (1001, 1)]).map
        (fun rm => (alookup rm.2.inventory 1001).map Item.reserved) =
      some (some 5) ∧
    (initialManager.reserve_items 0 oidA [(1001, 1), (1001, 1)]).map
        (fun rm => (alookup (rm.2.release_reservation oidA).2.inventory 1001).map
          Item.reserved) =
      some (some 4) ∧
    (alookup initialManager.inventory 1001).map Item.reserved = some 3 ∧
    ((4 : ℤ) = 3 → False) := by
  refine ⟨by decide, by decide, by decide, by decide⟩

theorem alookup_amodify_proj {γ : Type} (g : β → γ) (l : List (κ × β)) (k : κ)
    (f : β → β) (hg : ∀ v, g (f v) = g v) (j : κ) :
    (alookup (amodify l k f) j).map g = (alookup l j).map g := by
  by_cases hj : j = k
  · rw [hj, alookup_amodify_self]
    cases alookup l k <;> simp [hg]
  · rw [alookup_amodify_ne _ _ hj]

/-- Every outcome of `reserve_items` leaves the catalog either unchanged or
equal to the commit loop's result. -/
theorem reserve_result_inventory {m : InventoryManager} {now : Nat}
    {oid : String} {items : List (Nat × Int)} {rm : ReserveResult × InventoryManager}
    (h : m.reserve_items now oid items = some rm) :
    rm.2 = m ∨
    rm.2.inventory = mapReserved (fun r q => r + q) m.inventory items := by
  rw [InventoryManager.reserve_items] at h
  by_cases hdup : (alookup m.reservations oid).isSome
  · rw [if_pos hdup] at h
    cases Option.some.inj h
    exact Or.inl rfl
  · rw [if_neg hdup] at h
    cases hf : items.find? (fun p => ! m.check_availability p.1 p.2) with
    | some p =>
      obtain ⟨pid, pq⟩ := p
      rw [hf] at h
      dsimp only at h
      cases hl : alookup m.inventory pid with
      | none => rw [hl] at h; exact absurd h (by simp)
      | some it =>
        rw [hl] at h
        cases Option.some.inj h
        exact Or.inl rfl
    | none =>
      rw [hf] at h
      cases Option.some.inj h
      exact Or.inr (foldl_reserveStep_inventory items m [])

/-- Every outcome of `release_reservation` leaves the catalog either
unchanged (unknown order) or equal to the release loop's result on the
stored reservation. -/
theorem release_result_inventory (m : InventoryManager) (oid : String) :
    (alookup m.reservations oid = none ∧ (m.release_reservation oid).2 = m) ∨
    (∃ r, alookup m.reservations oid = some r ∧
      (m.release_reservation oid).2.inventory =
        mapReserved (fun r q => r - q) m.inventory r.items) := by
  rw [InventoryManager.release_reservation]
  cases hl : alookup m.reservations oid with
  | none => exact Or.inl ⟨rfl, rfl⟩
  | some r => exact Or.inr ⟨r, rfl, foldl_releaseStep_inventory r.items m⟩

/-- Every outcome of `adjust_inventory` leaves the catalog either unchanged
or equal to a single in-place stock overwrite of the target item. -/
theorem adjust_result_inventory (m : InventoryManager) (now : Nat) (id : Nat)
    (delta : Int) (reason : String) :
    (m.adjust_inventory now id delta reason).2 = m ∨
    (∃ ns, (m.adjust_inventory now id delta reason).2.inventory =
      amodify m.inventory id (fun it => { it with stock := ns })) := by
  rw [InventoryManager.adjust_inventory]
  cases hl : alookup m.inventory id with
  | none => exact Or.inl rfl
  | some it =>
    dsimp only
    by_cases hneg : it.stock + delta < 0
    · rw [if_pos hneg]
      exact Or.inl rfl
    · rw [if_neg hneg]
      exact Or.inr ⟨it.stock + delta, rfl⟩

/-- C10 (frame effects): `reserve_items` never changes any item's `stock`,
`name`, `sku` or `item_id` and leaves items outside the request untouched;
`release_reservation` likewise, with items outside the stored reservation
untouched, and is a complete no-op for an unknown order id;
`adjust_inventory` never changes any item's `reserved`, `name`, `sku` or
`item_id` and leaves every item other than the target untouched. -/
theorem ledger_frame_spec (m : InventoryManager) (now : Nat) (oid : String)
    (items : List (Nat × Int)) (id : Nat) (delta : Int) (reason : String) :
    (∀ rm : ReserveResult × InventoryManager,
      m.reserve_items now oid items = some rm →
      sameProj Item.stock m.inventory rm.2.inventory ∧
      sameProj Item.name m.inventory rm.2.inventory ∧
      sameProj Item.sku m.inventory rm.2.inventory ∧
      sameProj Item.item_id m.inventory rm.2.inventory ∧
      untouchedOutside m.inventory rm.2.inventory (items.map Prod.fst)) ∧
    (sameProj Item.stock m.inventory (m.release_reservation oid).2.inventory ∧
     sameProj Item.name m.inventory (m.release_reservation oid).2.inventory ∧
     sameProj Item.sku m.inventory (m.release_reservation oid).2.inventory ∧
     sameProj Item.item_id m.inventory (m.release_reservation oid).2.inventory ∧
     (∀ r : Reservation, alookup m.reservations oid = some r →
       untouchedOutside m.inventory (m.release_reservation oid).2.inventory
         (r.items.map Prod.fst)) ∧
     (alookup m.reservations oid = none → (m.release_reservation oid).2 = m)) ∧
    (sameProj Item.reserved m.inventory (m.adjust_inventory now id delta reason).2.inventory ∧
     sameProj Item.name m.inventory (m.adjust_inventory now id delta reason).2.inventory ∧
     sameProj Item.sku m.inventory (m.adjust_inventory now id delta reason).2.inventory ∧
     sameProj Item.item_id m.inventory (m.adjust_inventory now id delta reason).2.inventory ∧
     untouchedOutside m.inventory (m.adjust_inventory now id delta reason).2.inventory [id]) := by
  have hmap : ∀ (f : Int → Int → Int) {γ : Type} (g : Item → γ),
      (∀ it v, g { it with reserved := v } = g it) →
      sameProj g m.inventory (mapReserved f m.inventory items) := by
    intro f γ g hg j
    exact alookup_mapReserved_proj g (fun it v => hg it v) f m.inventory items j
  refine ⟨?_, ?_, ?_⟩
  · intro rm hrm
    rcases reserve_result_inventory hrm with h | h
    · rw [h]
      exact ⟨fun j => rfl, fun j => rfl, fun j => rfl, fun j => rfl, fun j hj => rfl⟩
    · rw [h]
      refine ⟨hmap _ Item.stock (fun it v => rfl), hmap _ Item.name (fun it v => rfl),
        hmap _ Item.sku (fun it v => rfl), hmap _ Item.item_id (fun it v => rfl), ?_⟩
      intro j hj
      exact alookup_mapReserved_not_mem _ _ _ hj
  · rcases release_result_inventory m oid with ⟨hnone, heq⟩ | ⟨r, hr, heq⟩
    · rw [heq]
      exact ⟨fun j => rfl, fun j => rfl, fun j => rfl, fun j => rfl,
        fun r hr => absurd (hnone ▸ hr) (by simp), fun h => rfl⟩
    · rw [heq]
      refine ⟨?_, ?_, ?_, ?_, ?_, ?_⟩
      · intro j
        exact alookup_mapReserved_proj Item.stock (fun it v => rfl) _ m.inventory _ j
      · intro j
        exact alookup_mapReserved_proj Item.name (fun it v => rfl) _ m.inventory _ j
      · intro j
        exact alookup_mapReserved_proj Item.sku (fun it v => rfl) _ m.inventory _ j
      · intro j
        exact alookup_mapReserved_proj Item.item_id (fun it v => rfl) _ m.inventory _ j
      · intro r2 hr2 j hj
        rw [hr] at hr2
        cases Option.some.inj hr2
        exact alookup_mapReserved_not_mem _ _ _ hj
      · intro hnone
        rw [hnone] at hr
        cases hr
  · rcases adjust_result_inventory m now id delta reason with h | ⟨ns, h⟩
    · rw [h]
      exact ⟨fun j => rfl, fun j => rfl, fun j => rfl, fun j => rfl, fun j hj => rfl⟩
    · rw [h]
      refine ⟨?_, ?_, ?_, ?_, ?_⟩
      · intro j
        exact alookup_amodify_proj Item.reserved m.inventory id
          (fun it => { it with stock := ns }) (fun v => rfl) j
      · intro j
        exact alookup_amodify_proj Item.name m.inventory id
          (fun it => { it with stock := ns }) (fun v => rfl) j
      · intro j
        exact alookup_amodify_proj Item.sku m.inventory id
          (fun it => { it with stock := ns }) (fun v => rfl) j
      · intro j
        exact alookup_amodify_proj Item.item_id m.inventory id
          (fun it => { it with stock := ns }) (fun v => rfl) j
      · intro j hj
        have hne : j ≠ id := by simpa using hj
        exact alookup_amodify_ne _ _ hne

/-- Witness for C10: a reserve, a release of an unknown order, and an
adjustment on the seeded ledger. -/
theorem ledger_frame_spec_witness :
    sameProj Item.stock initialManager.inventory
      (Option.get (initialManager.reserve_items 0 oidX [(1001, 5)]) (by decide)).2.inventory ∧
    (initialManager.release_reservation oidX).2 = initialManager ∧
    alookup (initialManager.adjust_inventory 0 1001 100 reasonA).2.inventory 1002 =
      alookup initialManager.inventory 1002 := by
  refine ⟨?_, ?_, ?_⟩
  · exact ((ledger_frame_spec initialManager 0 oidX [(1001, 5)] 1001 0 reasonA).1
      (Option.get _ (by decide)) (Option.some_get _).symm).1
  · exact (ledger_frame_spec initialManager 0 oidX [] 1001 0 reasonA).2.1.2.2.2.2.2
      (by decide)
  · exact (ledger_frame_spec initialManager 0 oidX [] 1001 100 reasonA).2.2.2.2.2.2
      1002 (by decide)

/-! ## The ledger invariant (C1) -/

theorem ledgerInv_congr {m m2 : InventoryManager}
    (hi : m2.inventory = m.inventory) (hr : m2.reservations = m.reservations)
    (h : LedgerInv m) : LedgerInv m2 := by
  rw [LedgerInv, hi, hr]
  exact h

theorem get_item_state (m : InventoryManager) (now : Nat) (id : Nat) :
    (m.get_item now id).2.inventory = m.inventory ∧
    (m.get_item now id).2.reservations = m.reservations := by
  rw [InventoryManager.get_item]
  rcases he : m.cache.get now (itemKey id) with ⟨o, c1⟩
  cases o with
  | some snap => exact ⟨rfl, rfl⟩
  | none =>
    cases alookup m.inventory id with
    | none => exact ⟨rfl, rfl⟩
    | some item => exact ⟨rfl, rfl⟩

theorem nodup_keys_append_single {l : List (κ × β)} {k : κ} (v : β)
    (hnd : (l.map Prod.fst).Nodup) (h : alookup l k = none) :
    ((l ++ [(k, v)]).map Prod.fst).Nodup := by
  rw [List.map_append]
  refine List.Nodup.append hnd (List.nodup_singleton k) ?_
  intro a ha hb
  simp at hb
  rw [hb] at ha
  exact (alookup_eq_none_iff.mp h) ha

theorem nodup_keys_aerase {l : List (κ × β)} (k : κ)
    (hnd : (l.map Prod.fst).Nodup) : ((aerase l k).map Prod.fst).Nodup :=
  List.Nodup.sublist (List.Sublist.map _ (List.filter_sublist l)) hnd

theorem resSum_append_single (l : List (String × Reservation)) (oid : String)
    (r : Reservation) (j : Nat) :
    resSum (l ++ [(oid, r)]) j = resSum l j + (alookup r.items j).getD 0 := by
  rw [resSum_append]
  simp [resSum]

/-- One well-formed ledger call preserves the invariant. -/
theorem ledgerInv_apply {m : InventoryManager} (op : LedgerOp)
    (hop : op.ok) (hinv : LedgerInv m) : LedgerInv (op.apply m) := by
  obtain ⟨hnd, hrnd, hresv, hitem⟩ := hinv
  cases op with
  | checkAvail id q => exact ⟨hnd, hrnd, hresv, hitem⟩
  | lowStock t => exact ⟨hnd, hrnd, hresv, hitem⟩
  | getItem now id =>
    exact ledgerInv_congr (get_item_state m now id).1 (get_item_state m now id).2
      ⟨hnd, hrnd, hresv, hitem⟩
  | reserve now oid items =>
    show LedgerInv (match m.reserve_items now oid items with
      | some (_, m1) => m1
      | none => m)
    by_cases hdup : (alookup m.reservations oid).isSome
    · rw [InventoryManager.reserve_items, if_pos hdup]
      exact ⟨hnd, hrnd, hresv, hitem⟩
    · have hres2 : alookup m.reservations oid = none :=
        Option.not_isSome_iff_eq_none.mp hdup
      cases hf : items.find? (fun p => ! m.check_availability p.1 p.2) with
      | some p =>
        obtain ⟨pid, pq⟩ := p
        rw [InventoryManager.reserve_items, if_neg hdup, hf]
        dsimp only
        cases alookup m.inventory pid with
        | none => exact ⟨hnd, hrnd, hresv, hitem⟩
        | some it => exact ⟨hnd, hrnd, hresv, hitem⟩
      | none =>
        have hav : ∀ p ∈ items, m.check_availability p.1 p.2 = true := by
          intro p hp
          have := List.find?_eq_none.mp hf p hp
          simpa using this
        rw [reserve_items_success_fields hres2 hav hop.1]
        dsimp only
        refine ⟨?_, ?_, ?_, ?_⟩
        · rw [mapReserved_keys]
          exact hnd
        · exact nodup_keys_append_single _ hrnd hres2
        · intro p hp
          rcases List.mem_append.mp hp with hp1 | hp1
          · exact hresv p hp1
          · simp at hp1
            rw [hp1]
            exact ⟨hop.1, hop.2⟩
        · intro j it hj
          by_cases hin : j ∈ items.map Prod.fst
          · rcases List.mem_map.mp hin with ⟨a, hmem, ha⟩
            rcases a with ⟨j2, q⟩
            have ha2 : j2 = j := ha
            subst ha2
            rw [alookup_mapReserved_nodup _ _ hop.1 hmem] at hj
            cases hli : alookup m.inventory j2 with
            | none => rw [hli] at hj; cases hj
            | some it0 =>
              rw [hli] at hj
              cases Option.some.inj hj
              dsimp only
              have hb := hitem j2 it0 hli
              have hq : 0 ≤ q := hop.2 (j2, q) hmem
              have hck := hav (j2, q) hmem
              rw [InventoryManager.check_availability, hli] at hck
              simp only [decide_eq_true_eq, ge_iff_le] at hck
              have hsum : resSum (m.reservations ++ [(oid, ⟨items, now⟩)]) j2 =
                  resSum m.reservations j2 + q := by
                rw [resSum_append_single]
                have : alookup (⟨items, now⟩ : Reservation).items j2 = some q :=
                  alookup_of_mem_nodup hop.1 hmem
                rw [this]
                rfl
              rw [hsum]
              have hb3 := (hb.2).2
              refine ⟨by omega, by omega, by omega⟩
          · rw [alookup_mapReserved_not_mem _ _ _ hin] at hj
            have hb := hitem j it hj
            have hsum : resSum (m.reservations ++ [(oid, ⟨items, now⟩)]) j =
                resSum m.reservations j := by
              rw [resSum_append_single]
              have : alookup (⟨items, now⟩ : Reservation).items j = none :=
                alookup_eq_none_iff.mpr hin
              rw [this]
              simp
            rw [hsum]
            exact hb
  | release oid =>
    show LedgerInv (m.release_reservation oid).2
    rw [InventoryManager.release_reservation]
    cases hl : alookup m.reservations oid with
    | none => exact ⟨hnd, hrnd, hresv, hitem⟩
    | some r =>
      dsimp only
      have hmem0 : (oid, r) ∈ m.reservations := alookup_mem hl
      obtain ⟨rndup, rqty⟩ := hresv (oid, r) hmem0
      refine ⟨?_, ?_, ?_, ?_⟩
      · rw [foldl_releaseStep_inventory, mapReserved_keys]
        exact hnd
      · rw [foldl_releaseStep_reservations]
        exact nodup_keys_aerase oid hrnd
      · rw [foldl_releaseStep_reservations]
        intro p hp
        exact hresv p (List.mem_of_mem_filter hp)
      · intro j it hj
        dsimp only at hj ⊢
        rw [foldl_releaseStep_inventory] at hj
        rw [foldl_releaseStep_reservations]
        have hdec := resSum_aerase hrnd hl j
        have haer_nonneg : 0 ≤ resSum (aerase m.reservations oid) j := by
          refine resSum_nonneg ?_ j
          intro p hp q hq
          exact (hresv p (List.mem_of_mem_filter hp)).2 q hq
        by_cases hin : j ∈ r.items.map Prod.fst
        · rcases List.mem_map.mp hin with ⟨a, hmem, ha⟩
          rcases a with ⟨j2, q⟩
          have ha2 : j2 = j := ha
          subst ha2
          rw [alookup_mapReserved_nodup _ _ rndup hmem] at hj
          cases hli : alookup m.inventory j2 with
          | none => rw [hli] at hj; cases hj
          | some it0 =>
            rw [hli] at hj
            cases Option.some.inj hj
            dsimp only
            have hb := hitem j2 it0 hli
            have hq : 0 ≤ q := rqty (j2, q) hmem
            have hlq : alookup r.items j2 = some q :=
              alookup_of_mem_nodup rndup hmem
            rw [hlq] at hdec
            simp only [Option.getD_some] at hdec
            omega
        · rw [alookup_mapReserved_not_mem _ _ _ hin] at hj
          have hb := hitem j it hj
          have hlq : alookup r.items j = none := alookup_eq_none_iff.mpr hin
          rw [hlq] at hdec
          simp only [Option.getD_none] at hdec
          omega
  | adjust now id delta reason =>
    show LedgerInv (m.adjust_inventory now id delta reason).2
    rw [InventoryManager.adjust_inventory]
    cases hl : alookup m.inventory id with
    | none => exact ⟨hnd, hrnd, hresv, hitem⟩
    | some it =>
      dsimp only
      by_cases hneg : it.stock + delta < 0
      · rw [if_pos hneg]
        exact ⟨hnd, hrnd, hresv, hitem⟩
      · rw [if_neg hneg]
        refine ⟨?_, hrnd, hresv, ?_⟩
        · rw [amodify_keys]
          exact hnd
        · intro j it2 hj
          by_cases hji : j = id
          · rw [hji, alookup_amodify_self, hl] at hj
            cases Option.some.inj hj
            dsimp only
            have hb := hitem id it hl
            have hdelta : 0 ≤ delta := hop
            rw [hji]
            have hb3 := hb.2.2
            refine ⟨hb.1, by omega, by omega⟩
          · rw [alookup_amodify_ne _ _ hji] at hj
            exact hitem j it2 hj

theorem ledgerInv_initial : LedgerInv initialManager := by
  refine ⟨by decide, by decide, ?_, ?_⟩
  · intro p hp
    cases hp
  intro j it h
  have hm := alookup_mem h
  have : ∀ p ∈ initialManager.inventory,
      0 ≤ p.2.reserved ∧ p.2.reserved ≤ p.2.stock := by decide
  have hb := this (j, it) hm
  dsimp only at hb
  exact ⟨hb.1, hb.2, by simpa [resSum, initialManager] using hb.1⟩

theorem ledgerInv_run (ops : List LedgerOp) (m : InventoryManager)
    (hops : ∀ op ∈ ops, op.ok) (h : LedgerInv m) :
    LedgerInv (runLedgerOps ops m) := by
  induction ops generalizing m with
  | nil => exact h
  | cons op rest ih =>
    show LedgerInv (runLedgerOps rest (op.apply m))
    exact ih (op.apply m)
      (fun o ho => hops o (List.mem_cons_of_mem _ ho))
      (ledgerInv_apply op (hops op (List.mem_cons_self _ _)) h)

/-- C1 (amended): starting from the seeded catalog, after every sequence of
well-formed ledger calls — reserve requests with pairwise-distinct item ids
and nonnegative quantities, and nonnegative adjustments — every item
satisfies `0 ≤ reserved ≤ stock` and hence `available = stock - reserved ≥
0`.  (The original claim over all call sequences is refuted by
`ledger_invariant_counterexample`: a negative adjustment may drop `stock`
below `reserved`, the gap the spec itself flags as an open question.) -/
theorem ledger_invariant_spec (ops : List LedgerOp)
    (hops : ∀ op ∈ ops, op.ok) :
    ∀ p ∈ (runLedgerOps ops initialManager).inventory,
      0 ≤ p.2.reserved ∧ p.2.reserved ≤ p.2.stock ∧
      0 ≤ p.2.stock - p.2.reserved := by
  obtain ⟨hnd, _, _, hitem⟩ := ledgerInv_run ops initialManager hops ledgerInv_initial
  intro p hp
  obtain ⟨j, it⟩ := p
  dsimp only
  have hl := alookup_of_mem_nodup hnd hp
  have hb := hitem j it hl
  exact ⟨hb.1, hb.2.1, by omega⟩

/-- Witness for C1 on a reserve / adjust / release sequence. -/
theorem ledger_invariant_spec_witness :
    0 ≤ (3 : ℤ) ∧ (3 : ℤ) ≤ 147 ∧ 0 ≤ (147 : ℤ) - 3 :=
  ledger_invariant_spec
    [LedgerOp.reserve 0 oidY [(1001, 5)], LedgerOp.adjust 1 1001 100 reasonA,
      LedgerOp.release oidY]
    (by
      intro op hop
      simp only [List.mem_cons, List.not_mem_nil, or_false] at hop
      rcases hop with h | h | h
      · rw [h]; exact ⟨by decide, by decide⟩
      · rw [h]; exact (by decide : (0 : ℤ) ≤ 100)
      · rw [h]; trivial)
    (1001, ⟨1001, "Laptop Pro 15\"", 147, 3, "LAP-PRO-15"⟩) (by decide)

/-- C1 counterexample: from the seeded catalog, the single call
`adjust_inventory(1001, -46)` succeeds (47 - 46 = 1 ≥ 0 passes the only
guard) and leaves item 1001 with `reserved = 3 > stock = 1`, violating the
claimed invariant. -/
theorem ledger_invariant_counterexample :
    (initialManager.adjust_inventory 0 1001 (-46) reasonA).1 =
      AdjustResult.adjusted 1001 47 1 (-46) reasonA ∧
    alookup (runLedgerOps [LedgerOp.adjust 0 1001 (-46) reasonA]
        initialManager).inventory 1001 =
      some ⟨1001, "Laptop Pro 15\"", 1, 3, "LAP-PRO-15"⟩ ∧
    ¬ ((3 : ℤ) ≤ 1) := by
  refine ⟨by decide, by decide, by decide⟩

end VersionHell
